import Mathlib

/-- Untyped JSON value, the result of Python's `json.loads`.
Numbers are kept as `m * 10 ^ e` (mantissa and decimal exponent). -/
inductive JValue where
  | null
  | bool (b : Bool)
  | num (m : Int) (e : Int)
  | str (s : String)
  | arr (xs : List JValue)
  | obj (fields : List (String × JValue))
deriving Inhabited

/-- JSON whitespace characters accepted between tokens by `json.loads`. -/
def isJsonWs (c : Char) : Bool :=
  c = ' ' || c = '\t' || c = '\n' || c = '\r'

def skipWs (cs : List Char) : List Char :=
  cs.dropWhile isJsonWs

def isHexDigit (c : Char) : Bool :=
  ('0' ≤ c && c ≤ '9') || ('a' ≤ c && c ≤ 'f') || ('A' ≤ c && c ≤ 'F')

def hexVal (c : Char) : Nat :=
  if '0' ≤ c && c ≤ '9' then c.toNat - '0'.toNat
  else if 'a' ≤ c && c ≤ 'f' then c.toNat - 'a'.toNat + 10
  else c.toNat - 'A'.toNat + 10

/-- Body of a JSON string literal after the opening quote: returns the decoded
characters and the input remaining after the closing quote. -/
def parseStrBody : List Char → Option (List Char × List Char)
  | [] => none
  | '"' :: rest => some ([], rest)
  | '\\' :: '"' :: rest => (parseStrBody rest).map fun (s, r) => ('"' :: s, r)
  | '\\' :: '\\' :: rest => (parseStrBody rest).map fun (s, r) => ('\\' :: s, r)
  | '\\' :: '/' :: rest => (parseStrBody rest).map fun (s, r) => ('/' :: s, r)
  | '\\' :: 'b' :: rest => (parseStrBody rest).map fun (s, r) => ('\x08' :: s, r)
  | '\\' :: 'f' :: rest => (parseStrBody rest).map fun (s, r) => ('\x0c' :: s, r)
  | '\\' :: 'n' :: rest => (parseStrBody rest).map fun (s, r) => ('\n' :: s, r)
  | '\\' :: 'r' :: rest => (parseStrBody rest).map fun (s, r) => ('\r' :: s, r)
  | '\\' :: 't' :: rest => (parseStrBody rest).map fun (s, r) => ('\t' :: s, r)
  | '\\' :: 'u' :: h1 :: h2 :: h3 :: h4 :: rest =>
    if isHexDigit h1 && isHexDigit h2 && isHexDigit h3 && isHexDigit h4 then
      let n := ((hexVal h1 * 16 + hexVal h2) * 16 + hexVal h3) * 16 + hexVal h4
      (parseStrBody rest).map fun (s, r) => (Char.ofNat n :: s, r)
    else none
  | '\\' :: _ :: _ => none
  | ['\\'] => none
  | c :: rest =>
    if c.toNat < 0x20 then none
    else (parseStrBody rest).map fun (s, r) => (c :: s, r)

def digitsVal (ds : List Char) : Nat :=
  ds.foldl (fun a c => a * 10 + (c.toNat - '0'.toNat)) 0

/-- Parse a JSON number starting at the head of the input (which is a digit or
a minus sign); returns mantissa, decimal exponent and the rest of the input. -/
def parseNum (cs : List Char) : Option ((Int × Int) × List Char) :=
  let (neg, cs₁) := match cs with
    | '-' :: t => (true, t)
    | t => (false, t)
  let intDs := cs₁.takeWhile Char.isDigit
  let cs₂ := cs₁.dropWhile Char.isDigit
  if intDs.isEmpty then none
  else
    let (fracDs, cs₃) := match cs₂ with
      | '.' :: t =>
        (t.takeWhile Char.isDigit, t.dropWhile Char.isDigit)
      | t => ([], t)
    if cs₂ ≠ cs₃ && fracDs.isEmpty then none
    else
      let (expOk, expVal, cs₄) : Bool × Int × List Char := match cs₃ with
        | 'e' :: t | 'E' :: t =>
          let (eneg, t₁) := match t with
            | '-' :: u => (true, u)
            | '+' :: u => (false, u)
            | u => (false, u)
          let eDs := t₁.takeWhile Char.isDigit
          if eDs.isEmpty then (false, 0, t₁)
          else ((true), (if eneg then -(digitsVal eDs : Int) else (digitsVal eDs : Int)),
                t₁.dropWhile Char.isDigit)
        | t => (true, 0, t)
      if !expOk then none
      else
        let mag : Nat := digitsVal (intDs ++ fracDs)
        let m : Int := if neg then -(mag : Int) else (mag : Int)
        some ((m, expVal - (fracDs.length : Int)), cs₄)

/-- Replace the binding for `k` if present (Python dict semantics: later keys
in a JSON object overwrite earlier ones, keeping the first position). -/
def objUpsert (fields : List (String × JValue)) (k : String) (v : JValue) :
    List (String × JValue) :=
  match fields with
  | [] => [(k, v)]
  | (k', v') :: rest =>
    if k' = k then (k', v) :: rest else (k', v') :: objUpsert rest k v

def objDedup (fields : List (String × JValue)) : List (String × JValue) :=
  fields.foldl (fun acc (kv : String × JValue) => objUpsert acc kv.1 kv.2) []

mutual

/-- Parse one JSON value at the head of the input (no leading whitespace). -/
def parseVal : Nat → List Char → Option (JValue × List Char)
  | 0, _ => none
  | _ + 1, 'n' :: 'u' :: 'l' :: 'l' :: rest => some (.null, rest)
  | _ + 1, 't' :: 'r' :: 'u' :: 'e' :: rest => some (.bool true, rest)
  | _ + 1, 'f' :: 'a' :: 'l' :: 's' :: 'e' :: rest => some (.bool false, rest)
  | _ + 1, '"' :: rest =>
    (parseStrBody rest).map fun (s, r) => (.str (String.mk s), r)
  | fuel + 1, '[' :: rest =>
    match skipWs rest with
    | ']' :: r => some (.arr [], r)
    | r => (parseElems fuel r).map fun (xs, r') => (.arr xs, r')
  | fuel + 1, '{' :: rest =>
    match skipWs rest with
    | '}' :: r => some (.obj [], r)
    | r => (parseMembers fuel r).map fun (ms, r') => (.obj (objDedup ms), r')
  | _ + 1, cs =>
    (parseNum cs).map fun (me, r) => (.num me.1 me.2, r)

/-- Parse a comma-separated list of array elements followed by a closing
bracket. -/
def parseElems : Nat → List Char → Option (List JValue × List Char)
  | 0, _ => none
  | fuel + 1, cs => do
    let (v, r) ← parseVal fuel (skipWs cs)
    match skipWs r with
    | ',' :: r' => (parseElems fuel r').map fun (xs, r'') => (v :: xs, r'')
    | ']' :: r' => some ([v], r')
    | _ => none

/-- Parse a comma-separated list of object members followed by a closing
brace. -/
def parseMembers : Nat → List Char → Option (List (String × JValue) × List Char)
  | 0, _ => none
  | fuel + 1, cs =>
    match skipWs cs with
    | '"' :: rest => do
      let (kcs, r) ← parseStrBody rest
      match skipWs r with
      | ':' :: r' => do
        let (v, r'') ← parseVal fuel (skipWs r')
        match skipWs r'' with
        | ',' :: r₃ =>
          (parseMembers fuel r₃).map fun (ms, r₄) => ((String.mk kcs, v) :: ms, r₄)
        | '}' :: r₃ => some ([(String.mk kcs, v)], r₃)
        | _ => none
      | _ => none
    | _ => none

end

/-- Embedding of Python's `json.loads`: `none` models a raised
`json.JSONDecodeError`. -/
def jsonLoads (s : String) : Option JValue :=
  let cs := skipWs s.data
  match parseVal (s.data.length + 1) cs with
  | some (v, rest) => if (skipWs rest).isEmpty then some v else none
  | none => none

/-- Look up a key in a parsed JSON object (keys are unique after `objDedup`). -/
def objGet (fields : List (String × JValue)) (k : String) : Option JValue :=
  match fields with
  | [] => none
  | (k', v) :: rest => if k' = k then some v else objGet rest k

/-- Python truthiness of a parsed JSON value (`if x:`). -/
def jvTruthy : JValue → Bool
  | .null => false
  | .bool b => b
  | .num m _ => m ≠ 0
  | .str s => s ≠ ""
  | .arr xs => !xs.isEmpty
  | .obj fs => !fs.isEmpty

/-- A JSON array all of whose elements are strings, as `List[str]` -/
def strListOfJ : JValue → Option (List String)
  | .arr xs => xs.mapM fun x => match x with
      | .str s => some s
      | _ => none
  | _ => none

/-- Model `ResponseMetadata` from `src/schemas/nvidia.py`: metadata attached to a
structured LLM answer. -/
structure ResponseMetadata where
  confidence : String
  isPartial : Bool
  isUnanswerable : Bool
  diagnostics : List String
deriving DecidableEq

/-- Default-constructed `ResponseMetadata` (all pydantic field defaults). -/
def ResponseMetadata.default : ResponseMetadata :=
  ⟨"unknown", false, false, []⟩

/-- Model `RAGResponse` from `src/schemas/nvidia.py` (pydantic model,
`extra="forbid"`, `populate_by_name=True`, alias `confidence` for
`legacy_confidence`). -/
structure RAGResponse where
  answer : String
  sources : List String
  citations : List String
  metadata : ResponseMetadata
  legacyConfidence : Option String
deriving DecidableEq

/-- Result of `RAGResponse.model_dump(exclude={"legacy_confidence"})`. -/
structure RagDump where
  answer : String
  sources : List String
  citations : List String
  metadata : ResponseMetadata
deriving DecidableEq

def RAGResponse.dump (r : RAGResponse) : RagDump :=
  ⟨r.answer, r.sources, r.citations, r.metadata⟩

def confidenceLiterals : List String := ["high", "medium", "low", "unknown"]

def metadataKeys : List String :=
  ["confidence", "is_partial", "is_unanswerable", "diagnostics"]

/-- Validation of a JSON value against `ResponseMetadata`
(`extra="forbid"`; missing fields take their declared defaults; boolean
fields are modelled as accepting JSON booleans). `none` models a raised
`pydantic.ValidationError`. -/
def validateMetadata : JValue → Option ResponseMetadata
  | .obj fs =>
    if fs.all (fun kv => kv.1 ∈ metadataKeys) then do
      let conf ← match objGet fs "confidence" with
        | none => some "unknown"
        | some (.str s) => if s ∈ confidenceLiterals then some s else none
        | some _ => none
      let part ← match objGet fs "is_partial" with
        | none => some false
        | some (.bool b) => some b
        | some _ => none
      let unans ← match objGet fs "is_unanswerable" with
        | none => some false
        | some (.bool b) => some b
        | some _ => none
      let diags ← match objGet fs "diagnostics" with
        | none => some []
        | some j => strListOfJ j
      some ⟨conf, part, unans, diags⟩
    else none
  | _ => none

/-- Input keys `RAGResponse(**data)` accepts: field names plus the
`confidence` alias of `legacy_confidence`. -/
def ragInputKeys : List String :=
  ["answer", "sources", "citations", "metadata", "confidence", "legacy_confidence"]

/-- An optional `List[str]` field defaulting to `[]`. -/
def optStrListField (fs : List (String × JValue)) (k : String) :
    Option (List String) :=
  match objGet fs k with
  | none => some []
  | some j => strListOfJ j

/-- The `metadata` field: absent gives the default-constructed model. -/
def metadataField (fs : List (String × JValue)) : Option ResponseMetadata :=
  match objGet fs "metadata" with
  | none => some ResponseMetadata.default
  | some j => validateMetadata j

/-- The `legacy_confidence` field, populated through its `confidence` alias
or its own name (`Optional[str]`). -/
def legacyField (fs : List (String × JValue)) : Option (Option String) :=
  match (objGet fs "confidence").orElse (fun _ => objGet fs "legacy_confidence") with
  | none => some none
  | some (.str s) => some (some s)
  | some .null => some none
  | some _ => none

/-- The `_merge_legacy_confidence` model validator: move a truthy legacy
confidence into metadata when `metadata.confidence` is still `"unknown"`. -/
def mergeLegacy (metadata : ResponseMetadata) (legacy : Option String) :
    ResponseMetadata :=
  match legacy with
  | some s =>
    if s ≠ "" && metadata.confidence = "unknown" then
      { metadata with confidence := s }
    else metadata
  | none => metadata

/-- Validation of a keyword dictionary against `RAGResponse`, including the
`_merge_legacy_confidence` model validator. `none` models a raised
`pydantic.ValidationError`. -/
def ragOfFields (fs : List (String × JValue)) : Option RAGResponse :=
  if fs.all (fun kv => kv.1 ∈ ragInputKeys) then
    match objGet fs "answer" with
    | some (.str answer) =>
      match optStrListField fs "sources" with
      | some sources =>
        match optStrListField fs "citations" with
        | some citations =>
          match metadataField fs with
          | some metadata =>
            match legacyField fs with
            | some legacy =>
              some ⟨answer, sources, citations, mergeLegacy metadata legacy, legacy⟩
            | none => none
          | none => none
        | none => none
      | none => none
    | _ => none
  else none

/-- Uncaught Python exceptions escaping `ResponseParser.parse_structured_response`. -/
inductive PyExc where
  | typeError
  | validationError
deriving DecidableEq

/-- Embedding of `re.search(r"\x7b.*\x7d", response, re.DOTALL)`: the greedy
match runs from the first opening brace to the last closing brace after it. -/
def extractBraced (s : String) : Option String :=
  let cs := s.data
  let fromBrace := cs.drop ((cs.takeWhile (fun c => c ≠ '{')).length)
  let revAfter := fromBrace.reverse.takeWhile (fun c => c ≠ '}')
  let upTo := fromBrace.take (fromBrace.length - revAfter.length)
  if upTo.length ≥ 2 then some (String.mk upTo) else none

/-- Insertion sort on strings (Python's `sorted`, code-point lexicographic). -/
def insertStr (x : String) : List String → List String
  | [] => [x]
  | y :: ys => if x ≤ y then x :: y :: ys else y :: insertStr x ys

def sortStrs : List String → List String
  | [] => []
  | x :: xs => insertStr x (sortStrs xs)

/-- Allow-list used by `ResponseParser._extract_json_fallback`. -/
def fallbackAllowedKeys : List String :=
  ["answer", "sources", "citations", "metadata", "confidence"]

/-- The `# Final fallback: return response as plain text` tail of
`_extract_json_fallback`. The constructed `RAGResponse` is itself validated
by pydantic, so a `sources`/`citations` list with non-string members raises
an uncaught `ValidationError`. -/
def finalFallback (response : String) (diag : List String)
    (pj : Option (List (String × JValue))) : Except PyExc RagDump := do
  let answer := match pj with
    | some o => match objGet o "answer" with
      | some (.str s) => s
      | _ => response
    | none => response
  let sources ← match pj with
    | some o => match objGet o "sources" with
      | some (.arr xs) => match strListOfJ (.arr xs) with
        | some l => Except.ok l
        | none => Except.error PyExc.validationError
      | _ => Except.ok []
    | none => Except.ok []
  let citations ← match pj with
    | some o => match objGet o "citations" with
      | some (.arr xs) => match strListOfJ (.arr xs) with
        | some l => Except.ok l
        | none => Except.error PyExc.validationError
      | _ => Except.ok []
    | none => Except.ok []
  let md : ResponseMetadata :=
    ⟨"low", true, false,
      if diag.isEmpty then ["Used plain-text fallback because schema validation failed"]
      else diag⟩
  Except.ok ⟨answer, sources, citations, md⟩

/-- Embedding of `ResponseParser._extract_json_fallback` (diagnostic strings carry the
fixed message prefixes; exception details interpolated at runtime are
elided). -/
def extract_json_fallback (response : String) (diagnostics : List String)
    (parsedJson : Option (List (String × JValue))) : Except PyExc RagDump :=
  let (pj, diag) : Option (List (String × JValue)) × List String :=
    match parsedJson with
    | some o => (some o, diagnostics)
    | none =>
      match extractBraced response with
      | none => (none, diagnostics)
      | some sub =>
        match jsonLoads sub with
        | some (.obj o) => (some o, diagnostics)
        -- extracted text starts with a brace, so a successful parse is an object
        | some _ => (none, diagnostics ++ ["fallback_json_decode_error"])
        | none => (none, diagnostics ++ ["fallback_json_decode_error"])
  match pj with
  | some o =>
    -- `if parsed_json:` — the empty dict is falsy and skips the sanitize step
    if o.isEmpty then finalFallback response diag pj
    else
      let sanitized := o.filter (fun kv => kv.1 ∈ fallbackAllowedKeys)
      let extra := sortStrs ((o.map (fun kv => kv.1)).filter (fun k => k ∉ fallbackAllowedKeys))
      let diag₂ :=
        if extra.isEmpty then diag
        else diag ++ ["stripped_extra_fields: " ++ String.intercalate ", " extra]
      match ragOfFields sanitized with
      | some r =>
        let r :=
          if diag₂.isEmpty then r
          else { r with metadata :=
                  { r.metadata with diagnostics := r.metadata.diagnostics ++ diag₂ } }
        Except.ok r.dump
      | none => finalFallback response (diag₂ ++ ["fallback_validation_failed"]) pj
  | none => finalFallback response diag pj

/-- Embedding of `ResponseParser.parse_structured_response`: parse raw LLM text as JSON,
validate against `RAGResponse`, fall back to extraction and repair.
`Except.error` models an exception escaping the function: `json.loads`
succeeding with a non-object makes `RAGResponse(**parsed_json)` raise an
uncaught `TypeError`. -/
def parse_structured_response (response : String) : Except PyExc RagDump :=
  match jsonLoads response with
  | some (.obj o) =>
    match ragOfFields o with
    | some r => Except.ok r.dump
    | none => extract_json_fallback response ["schema_validation_failed"] (some o)
  | some _ => Except.error PyExc.typeError
  | none => extract_json_fallback response ["json_decode_error"] none

/-- Modelled from the spec: the inference gateway's closed error taxonomy
(§4.3); the exception classes `OllamaConnectionError`, `OllamaTimeoutError`,
`OllamaException` are declared in `src/exceptions.py`, which is not part of
the sources here. -/
inductive OllamaError where
  | connectionFailure
  | timeoutFailure
  | protocolFailure
deriving DecidableEq

/-- A parsed paper row as consumed by `FlashcardService` (title, abstract,
body text, pdf url). -/
structure Paper where
  arxiv_id : String
  title : String
  raw_text : Option String
  abstract : Option String
  pdf_url : Option String
deriving DecidableEq

/-- Python `a or b` for an optional string (Python truthiness: `None` and `""` fall
through). -/
def orTruthy (o : Option String) (d : String) : String :=
  match o with
  | some s => if s = "" then d else s
  | none => d

/-- Strip the characters of `set` from both ends (Python `str.strip(chars)`). -/
def stripChars (set : List Char) (s : String) : String :=
  String.mk (((s.data.dropWhile (fun c => c ∈ set)).reverse.dropWhile
    (fun c => c ∈ set)).reverse)

/-- Strip the characters of `set` from the left end (Python `str.lstrip`). -/
def lstripChars (set : List Char) (s : String) : String :=
  String.mk (s.data.dropWhile (fun c => c ∈ set))

/-- Python `str.split()` with no argument: split on whitespace runs,
discarding empty pieces. -/
def pySplitWs (s : String) : List String :=
  (s.split Char.isWhitespace).filter (fun w => w ≠ "")

def cleanLabels : List String :=
  ["headline:", "insight:", "why it matters:", "why it matters"]

/-- Embedding of `FlashcardService._clean_text`. -/
def clean_text (text : String) : String :=
  if text = "" then ""
  else
    let cleaned := ((text.replace "**" "").replace "\n" " ").trim
    let cleaned := cleanLabels.foldl
      (fun c label =>
        if c.toLower.startsWith label then stripChars [' ', '-', ':'] (c.drop label.length)
        else c)
      cleaned
    String.intercalate " " (pySplitWs cleaned)

/-- Embedding of `FlashcardService._extract_headline`: first sentence up to 12 words. -/
def extract_headline (text : String) : String :=
  let cleaned := clean_text text
  let words := pySplitWs cleaned
  let headline := if words.isEmpty then "" else String.intercalate " " (words.take 12)
  if headline = "" then "Research highlight" else headline

/-- Embedding of `FlashcardService._extract_insight`: drop a leading repeat of the
headline, keep the first two sentences. -/
def extract_insight (text : String) (headline : String) : String :=
  let cleaned := clean_text text
  let cleaned :=
    if cleaned.toLower.startsWith headline.toLower then
      let d := lstripChars [' ', '.', '-', ':'] (cleaned.drop headline.length)
      if d = "" then cleaned else d
    else cleaned
  let insight := (String.intercalate ". " ((cleaned.splitOn ". ").take 2)).trim
  if insight = "" then cleaned else insight

/-- Embedding of `FlashcardService._extract_why`: the parsed dump has no
`why_it_matters` key, so the candidate falls through to `answer`. -/
def extract_why (parsed : RagDump) (insight : String) (headline : String) :
    Option String :=
  let candidate := clean_text parsed.answer
  if candidate.toLower = insight.toLower || candidate.toLower = headline.toLower then none
  else if candidate = "" then none
  else some (candidate.take 240)

/-- Embedding of `FlashcardService._build_prompt`. -/
def build_prompt (title : String) (content : String) : String :=
  let snippet := content.take 1500
  "You are summarizing an arXiv paper into a concise flashcard.\n" ++
    "Title: " ++ title ++ "\n" ++
    "Text snippet:\n" ++ snippet ++
    "\n\n" ++
    "Return a short headline and 1-2 sentence insight; also a brief 'why it matters'."

/-- One generated flashcard (the dict built by `_summarize_paper`). -/
structure Card where
  category : String
  arxiv_id : String
  headline : String
  insight : String
  why_it_matters : Option String
  source_url : Option String
deriving DecidableEq

/-- Embedding of `FlashcardService._summarize_paper`. Here `gen` is the NIM inference call:
`Except.error` models a raised `OllamaException` (or subclass),
`Except.ok none` a missing result or a result without a `"response"` key.
Every failure, including an exception escaping the response parser, is
caught and mapped to `None`. -/
def summarize_paper (gen : String → Except OllamaError (Option String))
    (category : String) (p : Paper) : Option Card :=
  let content := orTruthy p.raw_text (orTruthy p.abstract "")
  let prompt := build_prompt p.title content
  match gen prompt with
  | .error _ => none
  | .ok none => none
  | .ok (some resp) =>
    match parse_structured_response resp with
    | .error _ => none
    | .ok parsed =>
      let raw_answer := parsed.answer
      let headline := extract_headline raw_answer
      let insight := extract_insight raw_answer headline
      let why := extract_why parsed insight headline
      some ⟨category, p.arxiv_id, headline, insight, why, p.pdf_url⟩

/-- A row handed to `FlashcardsRepository.upsert_cards` (the JSONB summary
blob is the card itself with the temporal fields dropped). -/
structure CardRecord where
  category : String
  arxiv_id : String
  headline : String
  insight : String
  why_it_matters : Option String
  generated_at : Nat
  expires_at : Nat
deriving DecidableEq

def toRecord (category : String) (now expires : Nat) (c : Card) : CardRecord :=
  ⟨category, c.arxiv_id, c.headline, c.insight, c.why_it_matters, now, expires⟩

/-- Result of one `_regenerate` call: the returned cards, how many inference
calls were issued (one per attempted candidate), and the batch written to
persistent storage (`none` when `upsert_cards` was not called). -/
structure RegenOutcome where
  cards : List Card
  inferenceCalls : Nat
  upserted : Option (List CardRecord)
deriving DecidableEq

/-- Embedding of `FlashcardService._regenerate`: fan out one summarization task per
candidate (bounded concurrency, `asyncio.gather` preserves submission
order), keep the truthy results, truncate to `limit`, persist. -/
def regenerate (gen : String → Except OllamaError (Option String))
    (category : String) (candidates : List Paper) (limit : Nat)
    (now ttl : Nat) : RegenOutcome :=
  if candidates.isEmpty then ⟨[], 0, none⟩
  else
    let attempted := candidates.take (limit * 2)
    let gathered := attempted.map (fun p => summarize_paper gen category p)
    let summaries := gathered.filterMap id
    let cards := summaries.take limit
    let records := cards.map (toRecord category now (now + ttl))
    ⟨cards, attempted.length, if records.isEmpty then none else some records⟩

theorem objGet_sizeOf_lt {fields : List (String × JValue)} {k : String} {v : JValue}
    (h : objGet fields k = some v) : sizeOf v < sizeOf fields := by
  induction fields with
  | nil => simp [objGet] at h
  | cons kv rest ih =>
    obtain ⟨k', v'⟩ := kv
    simp only [objGet] at h
    split at h
    · cases h
      simp only [List.cons.sizeOf_spec, Prod.mk.sizeOf_spec]
      omega
    · have := ih h
      simp only [List.cons.sizeOf_spec]
      omega

/-- Model `MindMapNode` from `src/schemas/visualization/mindmaps.py`: a recursive
concept-node tree. `node_type` and `importance` are the string literals the
pydantic `Literal` fields constrain. -/
inductive MindMapNode where
  | mk (id : String) (label : String) (description : Option String)
      (node_type : String) (importance : String)
      (source_section : Option String) (children : List MindMapNode)

def MindMapNode.id : MindMapNode → String
  | .mk i _ _ _ _ _ _ => i

def MindMapNode.node_type : MindMapNode → String
  | .mk _ _ _ k _ _ _ => k

def MindMapNode.importance : MindMapNode → String
  | .mk _ _ _ _ i _ _ => i

def MindMapNode.children : MindMapNode → List MindMapNode
  | .mk _ _ _ _ _ _ cs => cs

/-- The `Literal` values of `MindMapNode.node_type`. -/
def allowedNodeTypes : List String :=
  ["root", "problem", "approach", "concept", "finding", "limitation", "contribution"]

/-- The `Literal` values of `MindMapNode.importance`. -/
def allowedImportance : List String := ["primary", "secondary", "tertiary"]

/-- An optional string field (`str | None = None`): absent and `null` give
`None`, a string gives the string, anything else fails validation. -/
def optStrOfJ : Option JValue → Option (Option String)
  | none => some none
  | some .null => some none
  | some (.str s) => some (some s)
  | some _ => none

/-- Embedding of `MindMapNode.model_validate`: recursive pydantic validation of a parsed
JSON value (extra keys are ignored — the model does not forbid them;
`children` defaults to `[]`). `none` models a raised `ValidationError`. -/
def validateNode (j : JValue) : Option MindMapNode :=
  match j with
  | .obj fs =>
    match objGet fs "id" with
    | some (.str id) =>
      match objGet fs "label" with
      | some (.str label) =>
        match optStrOfJ (objGet fs "description") with
        | some descr =>
          match objGet fs "node_type" with
          | some (.str ntype) =>
            if ntype ∈ allowedNodeTypes then
              match objGet fs "importance" with
              | some (.str imp) =>
                if imp ∈ allowedImportance then
                  match optStrOfJ (objGet fs "source_section") with
                  | some ssec =>
                    match hch : objGet fs "children" with
                    | none => some (.mk id label descr ntype imp ssec [])
                    | some (.arr xs) =>
                      match xs.attach.mapM (fun x => validateNode x.1) with
                      | some children => some (.mk id label descr ntype imp ssec children)
                      | none => none
                    | some _ => none
                  | none => none
                else none
              | _ => none
            else none
          | _ => none
        | none => none
      | _ => none
    | _ => none
  | _ => none
termination_by sizeOf j
decreasing_by
  have h1 := objGet_sizeOf_lt hch
  have h2 := List.sizeOf_lt_of_mem x.2
  simp only [JValue.obj.sizeOf_spec, JValue.arr.sizeOf_spec] at *
  omega

/-- Model `MindMap` from `src/schemas/visualization/mindmaps.py` (timestamps as
abstract instants). -/
structure MindMap where
  paper_id : String
  arxiv_id : String
  paper_title : String
  root : MindMapNode
  sections_covered : List String
  generated_at : Nat
  model_used : String

/-- How a `MindMapGenerator`/`MindMapService` call fails:
`genFailure` is a raised `MindMapGenerationError`; `unhandledExc` is any
other exception escaping the call (not caught anywhere on the route). -/
inductive ServiceErr where
  | genFailure (reason : String)
  | unhandledExc
deriving DecidableEq

/-- Python `str.strip()` (character-level, so that concrete payloads
evaluate definitionally). -/
def pyTrim (s : String) : String :=
  String.mk (((s.data.dropWhile Char.isWhitespace).reverse.dropWhile
    Char.isWhitespace).reverse)

/-- Split a character list on newlines (Python `str.splitlines` for text
without a trailing newline). -/
def splitCharsNL : List Char → List (List Char)
  | [] => [[]]
  | c :: rest =>
    if c = '\n' then [] :: splitCharsNL rest
    else match splitCharsNL rest with
      | [] => [[c]]
      | h :: t => (c :: h) :: t

def splitNL (s : String) : List String :=
  (splitCharsNL s.data).map String.mk

/-- Newline-joined lines (Python `"\n".join`). -/
def joinNL : List String → String
  | [] => ""
  | [t] => t
  | t :: rest => t ++ "\n" ++ joinNL rest

/-- The markdown code-fence stripping at the top of `MindMapGenerator._parse`. -/
def stripFence (raw : String) : String :=
  let cleaned := pyTrim raw
  if ("```".data).isPrefixOf cleaned.data then
    pyTrim (joinNL (((splitNL cleaned).drop 1).dropLast))
  else cleaned

/-- Embedding of `MindMapGenerator._parse`. Invalid JSON, a non-object payload, a missing
`root` key and a failing root validation are all caught and re-raised as
`MindMapGenerationError`; the final `MindMap(...)` construction is outside
the `try` blocks, so a wrongly-typed `paper_title` or `sections_covered`
raises an uncaught `pydantic.ValidationError`. -/
def mmParse (raw : String) (paper_id arxiv_id paper_title : String)
    (now : Nat) (model_used : String) : Except ServiceErr MindMap :=
  match jsonLoads (stripFence raw) with
  | none => .error (.genFailure "LLM returned invalid JSON")
  | some (.obj o) =>
    match objGet o "root" with
    | none => .error (.genFailure "Mind map validation failed")
    | some rv =>
      match validateNode rv with
      | none => .error (.genFailure "Mind map validation failed")
      | some root => do
        let title ← match objGet o "paper_title" with
          | none => Except.ok paper_title
          | some (.str s) => Except.ok s
          | some _ => Except.error ServiceErr.unhandledExc
        let secs ← match objGet o "sections_covered" with
          | none => Except.ok ([] : List String)
          | some j => match strListOfJ j with
            | some l => Except.ok l
            | none => Except.error ServiceErr.unhandledExc
        Except.ok ⟨paper_id, arxiv_id, title, root, secs, now, model_used⟩
  | some _ => .error (.genFailure "Mind map validation failed")

/-- One retrieved passage (OpenSearch chunk) with its section label. -/
structure Chunk where
  text : String
  section_title : String
deriving DecidableEq

/-- Embedding of `MindMapGenerator.generate`. The `llm` argument is the outcome of
`self._client.generate_mindmap(...)` (prompting and transport live behind
the inference gateway, outside this generator): `Except.error` is a raised
`Ollama*` exception, `Except.ok` the `result["raw"]` text. All three
gateway failures are wrapped into `MindMapGenerationError`. -/
def mmGenerate (paper_id arxiv_id paper_title : String) (chunks : List Chunk)
    (llm : Except OllamaError String) (now : Nat) (model_used : String) :
    Except ServiceErr MindMap :=
  if chunks.isEmpty then
    .error (.genFailure ("No chunks found for paper_id=" ++ paper_id))
  else
    match llm with
    | .error .connectionFailure => .error (.genFailure "LLM connection failed")
    | .error .timeoutFailure => .error (.genFailure "LLM timed out")
    | .error .protocolFailure => .error (.genFailure "LLM error")
    | .ok raw => mmParse raw paper_id arxiv_id paper_title now model_used

/-- Model `MindMapCacheEntry` from `src/schemas/visualization/mindmaps.py`. -/
structure MindMapCacheEntry where
  mindmap : MindMap
  cache_version : Nat
  hit_count : Nat
  cached_at : Nat
  expires_at : Nat

/-- The Redis keyspace: each live key holds a (deserialized) cache entry and
an absolute expiry instant (`SET ... EX` time-to-live bookkeeping).
Serialization round-trips (`model_dump_json` / `model_validate_json`) are
modelled as the identity. -/
def RedisState : Type := String → Option (MindMapCacheEntry × Nat)

/-- Embedding of `redis.get`: an expired key behaves as absent. -/
def redisGet (σ : RedisState) (now : Nat) (k : String) : Option MindMapCacheEntry :=
  match σ k with
  | some (e, exp) => if now < exp then some e else none
  | none => none

/-- Embedding of `redis.ttl`: remaining time-to-live in seconds, `-2` for a missing key. -/
def redisTtl (σ : RedisState) (now : Nat) (k : String) : Int :=
  match σ k with
  | some (_, exp) => if now < exp then (exp : Int) - (now : Int) else -2
  | none => -2

/-- Embedding of `redis.set(k, v, ex=ex)`. -/
def redisSetEx (σ : RedisState) (now : Nat) (k : String) (e : MindMapCacheEntry)
    (ex : Nat) : RedisState :=
  fun k' => if k' = k then some (e, now + ex) else σ k'

/-- Embedding of `redis.delete(k)`. -/
def redisDel (σ : RedisState) (k : String) : RedisState :=
  fun k' => if k' = k then none else σ k'

/-- Embedding of `_cache_key` from `src/services/visualization/mindmaps/cache.py`:
the configured cache version is embedded in the key. -/
def cacheKey (version : Nat) (paper_id : String) : String :=
  "mindmap:v" ++ toString version ++ ":" ++ paper_id

/-- Embedding of `MindMapCache.get`: on a hit, increment `hit_count` in place and
re-write the entry with its remaining time-to-live (falling back to the
configured default TTL if Redis reports no positive TTL). Returns the
mind map and the resulting Redis state. -/
def cacheGet (version defaultTtl : Nat) (σ : RedisState) (now : Nat)
    (paper_id : String) : Option MindMap × RedisState :=
  match redisGet σ now (cacheKey version paper_id) with
  | none => (none, σ)
  | some entry =>
    (some entry.mindmap,
      redisSetEx σ now (cacheKey version paper_id)
        { entry with hit_count := entry.hit_count + 1 }
        (if redisTtl σ now (cacheKey version paper_id) > 0
         then (redisTtl σ now (cacheKey version paper_id)).toNat else defaultTtl))

/-- Embedding of `MindMapCache.set`: write a fresh entry under the configured version
with `hit_count = 0` and expiry `now + ttl`. -/
def cacheSet (version ttl : Nat) (σ : RedisState) (now : Nat) (m : MindMap) :
    RedisState :=
  let entry : MindMapCacheEntry := ⟨m, version, 0, now, now + ttl⟩
  redisSetEx σ now (cacheKey version m.paper_id) entry ttl

/-- Embedding of `MindMapCache.invalidate`: unconditional delete of the configured
version's key. -/
def cacheInvalidate (version : Nat) (σ : RedisState) (paper_id : String) :
    RedisState :=
  redisDel σ (cacheKey version paper_id)

/-- Embedding of `MindMapService.get_or_generate`: check cache, generate on miss,
override the title from the paper record, cache and return. A generation
error is returned unchanged and nothing is written. -/
def get_or_generate (version defaultTtl ttl : Nat) (σ : RedisState) (now : Nat)
    (paper_id arxiv_id paper_title : String) (chunks : List Chunk)
    (llm : Except OllamaError String) (model_used : String) :
    Except ServiceErr MindMap × RedisState :=
  match cacheGet version defaultTtl σ now paper_id with
  | (some m, σ₁) => (.ok m, σ₁)
  | (none, σ₁) =>
    match mmGenerate paper_id arxiv_id paper_title chunks llm now model_used with
    | .error e => (.error e, σ₁)
    | .ok m =>
      let m := { m with paper_title := paper_title }
      (.ok m, cacheSet version ttl σ₁ now m)

/-- HTTP-level outcome of the `GET /visualization/{paper_id}/mindmap` route. -/
inductive RouterResult where
  | ok (m : MindMap)
  | notFound
  | unprocessable
  | badGateway
  | unhandledError

/-- The paper row returned by `PaperRepository.get_by_arxiv_id`. -/
structure PaperRow where
  arxiv_id : String
  title : String
deriving DecidableEq

/-- Embedding of `get_mindmap` from `src/routers/visualization.py`: 404 when the paper is
missing, 422 when no chunks are indexed, 502 when the service raises
`MindMapGenerationError`; any other exception is not caught by the route. -/
def get_mindmap (paper : Option PaperRow) (chunks : List Chunk)
    (version defaultTtl ttl : Nat) (σ : RedisState) (now : Nat)
    (paper_id : String) (llm : Except OllamaError String) (model_used : String) :
    RouterResult × RedisState :=
  match paper with
  | none => (.notFound, σ)
  | some p =>
    if chunks.isEmpty then (.unprocessable, σ)
    else
      match get_or_generate version defaultTtl ttl σ now paper_id p.arxiv_id
          p.title chunks llm model_used with
      | (.ok m, σ') => (.ok m, σ')
      | (.error (.genFailure _), σ') => (.badGateway, σ')
      | (.error .unhandledExc, σ') => (.unhandledError, σ')

/-- Modelled from the spec: one retrieved passage with its section label, as
consumed by the concept-graph prompt builder (§4.2, §6 `PassageSource`);
the builder itself (`generate_mindmap`'s prompt construction) is not among
the sources here. -/
structure Passage where
  text : String
  section_label : String
deriving DecidableEq

/-- Modelled from the spec: the fixed denylist of boilerplate sections
skipped by the concept-graph prompt builder (§4.2). -/
def sectionDenylist : List String :=
  ["references", "acknowledgements", "appendix", "funding"]

/-- Append a passage to its section group, preserving the order in which
section labels first appear and concatenating texts in passage order. -/
def addPassage (groups : List (String × String)) (p : Passage) :
    List (String × String) :=
  match groups with
  | [] => [(p.section_label, p.text)]
  | (l, t) :: rest =>
    if l = p.section_label then (l, t ++ "\n" ++ p.text) :: rest
    else (l, t) :: addPassage rest p

/-- Modelled from the spec: group passages by section label (§4.2). -/
def groupPassages (ps : List Passage) : List (String × String) :=
  ps.foldl addPassage []

def keepPassage (p : Passage) : Bool :=
  p.section_label.toLower ∉ sectionDenylist

/-- One assembled per-section text block. -/
def sectionBlock (label text : String) : String :=
  "## " ++ label ++ "\n" ++ text ++ "\n"

/-- Modelled from the spec: the per-section blocks of the concept-graph
prompt, boilerplate sections skipped (§4.2). -/
def sectionBlocks (ps : List Passage) : List String :=
  (groupPassages (ps.filter keepPassage)).map (fun g => sectionBlock g.1 g.2)

/-- Modelled from the spec: the fixed character budget bounding the
assembled section text (§4.2). -/
def charBudget : Nat := 12000

/-- Modelled from the spec: greedy assembly of whole section blocks within
the remaining budget; a block that does not fit ends the text at the
preceding section boundary, unless that block alone exceeds the full
budget, in which case it is split (§4.2, §8). -/
def assembleGo (budget : Nat) : Nat → List String → String
  | _, [] => ""
  | remaining, b :: rest =>
    if b.length ≤ remaining then b ++ assembleGo budget (remaining - b.length) rest
    else if budget < b.length then b.take remaining
    else ""

def assembleSections (budget : Nat) (blocks : List String) : String :=
  assembleGo budget budget blocks

/-- Modelled from the spec: `buildConceptGraphPrompt(title, extId,
sections)` (§4.2) — pure text assembly around the truncated section body. -/
def buildConceptGraphPrompt (title extId : String) (ps : List Passage) :
    String :=
  "Build a concept-graph mind map for the paper \"" ++ title ++ "\" (arXiv:" ++
    extId ++ ").\n\n" ++
    assembleSections charBudget (sectionBlocks ps) ++
    "\nReturn ONLY valid JSON with a single root node."

/-- The dictionary returned by `NvidiaClient.generate_rag_answer` (values
are whatever the duck-typed payload held). -/
structure RagAnswer where
  answer : JValue
  sources : JValue
  citations : JValue
  confidence : JValue

/-- Python `arxiv_id.split("v")[0]`: everything before the first `v`. -/
def splitFirstV (s : String) : String :=
  String.mk (s.data.takeWhile (fun c => c ≠ 'v'))

/-- The sources-from-chunks normalization loop of `generate_rag_answer`:
version-suffix-stripped arXiv ids, deduplicated, in chunk order. A truthy
non-string `arxiv_id` raises (`.split` on a non-string), which the
enclosing handler wraps into an `OllamaException`. -/
def collectSources (chunks : List (List (String × JValue))) (acc : List String) :
    Except OllamaError (List String) :=
  match chunks with
  | [] => .ok acc
  | chunk :: rest =>
    match objGet chunk "arxiv_id" with
    | none => collectSources rest acc
    | some v =>
      if jvTruthy v then
        match v with
        | .str s =>
          let clean := splitFirstV s
          if clean ∈ acc then collectSources rest acc
          else collectSources rest (acc ++ [clean])
        | _ => .error .protocolFailure
      else collectSources rest acc

/-- Python iteration over a parsed JSON value (`for src in x`): lists yield
members, strings yield characters, dicts yield keys, anything else raises
`TypeError` (wrapped into an `OllamaException` by the enclosing handler). -/
def jvIter : JValue → Except OllamaError (List JValue)
  | .arr xs => .ok xs
  | .str s => .ok (s.data.map (fun c => JValue.str (String.mk [c])))
  | .obj fs => .ok (fs.map (fun kv => JValue.str kv.1))
  | _ => .error .protocolFailure

/-- Python `str(x)` as used inside the citation f-string (container rendering
elided). -/
def pyStr : JValue → String
  | .str s => s
  | .null => "None"
  | .bool true => "True"
  | .bool false => "False"
  | .num m e => if e = 0 then toString m else toString m ++ "e" ++ toString e
  | .arr _ => "[...]"
  | .obj _ => "[object]"

/-- Fill a missing/falsy `sources` from the chunks. -/
def fillSources (o : List (String × JValue))
    (chunks : List (List (String × JValue))) :
    Except OllamaError (List (String × JValue)) :=
  match collectSources chunks [] with
  | .ok l => .ok (objUpsert o "sources" (.arr (l.map JValue.str)))
  | .error e => .error e

/-- Fill a missing/falsy `citations` from the (already normalized)
`sources` value. -/
def fillCitations (o : List (String × JValue)) :
    Except OllamaError (List (String × JValue)) :=
  match jvIter ((objGet o "sources").getD .null) with
  | .ok srcs => .ok (objUpsert o "citations"
      (.arr (srcs.map (fun src => JValue.str ("[arXiv:" ++ pyStr src ++ "]")))))
  | .error e => .error e

/-- The dictionary literal returned at the end of `generate_rag_answer`. -/
def mkRagAnswer (a : JValue) (o : List (String × JValue)) : RagAnswer :=
  ⟨a, (objGet o "sources").getD .null, (objGet o "citations").getD .null,
    (objGet o "confidence").getD .null⟩

/-- The response-validation and normalization tail of
`NvidiaClient.generate_rag_answer` (after the transport call): `resp` is
`response["response"].parsed`, `none` standing for a missing response.
Every raise inside the function body is wrapped into an `OllamaException`
by the enclosing `except Exception` handler. -/
def generateRagAnswerValidate (resp : Option JValue)
    (chunks : List (List (String × JValue))) : Except OllamaError RagAnswer :=
  match resp with
  | none => .error .protocolFailure
  | some (.obj o) =>
    match objGet o "answer" with
    | none => .error .protocolFailure
    | some a =>
      if jvTruthy a then
        match (match objGet o "sources" with
               | some s => if jvTruthy s then Except.ok o else fillSources o chunks
               | none => fillSources o chunks) with
        | .error e => .error e
        | .ok o₁ =>
          match (match objGet o₁ "citations" with
                 | some c => if jvTruthy c then Except.ok o₁ else fillCitations o₁
                 | none => fillCitations o₁) with
          | .error e => .error e
          | .ok o₂ =>
            match objGet o₂ "confidence" with
            | some _ => .ok (mkRagAnswer a o₂)
            | none => .ok (mkRagAnswer a (objUpsert o₂ "confidence" (.str "medium")))
      else .error .protocolFailure
  | some _ => .error .protocolFailure

/-- Specification-level decimal digit string of a natural number (used to
reason about the version component of `cacheKey`). -/
def decChars (n : Nat) : List Char :=
  if h : n < 10 then [Nat.digitChar n]
  else decChars (n / 10) ++ [Nat.digitChar (n % 10)]
decreasing_by
  have : 0 < n := by omega
  exact Nat.div_lt_self this (by omega)

/-- Relation `Subnode m n`: the node `m` occurs in the tree rooted at `n` (reflexive
descendant relation on `MindMapNode` trees). -/
inductive Subnode : MindMapNode → MindMapNode → Prop where
  | refl (n : MindMapNode) : Subnode n n
  | child {m c n : MindMapNode} : c ∈ n.children → Subnode m c → Subnode m n


/-- Total length in characters of a list of section blocks. -/
def sumLens (l : List String) : Nat :=
  (l.map String.length).sum

/-- Plain concatenation of section blocks. -/
def strJoin : List String → String
  | [] => ""
  | s :: rest => s ++ strJoin rest

/-! ### Helper lemmas -/

theorem digitChar_inj10 {a b : Nat} (ha : a < 10) (hb : b < 10)
    (h : Nat.digitChar a = Nat.digitChar b) : a = b := by
  have key : ∀ (x y : Fin 10), Nat.digitChar x.val = Nat.digitChar y.val → x = y := by decide
  have := key ⟨a, ha⟩ ⟨b, hb⟩ h
  exact congrArg Fin.val this

theorem digitChar_ne_colon {a : Nat} (ha : a < 10) : Nat.digitChar a ≠ ':' := by
  have key : ∀ (x : Fin 10), Nat.digitChar x.val ≠ ':' := by decide
  exact key ⟨a, ha⟩

theorem decChars_eq (n : Nat) :
    decChars n = if n < 10 then [Nat.digitChar n]
      else decChars (n / 10) ++ [Nat.digitChar (n % 10)] := by
  conv_lhs => rw [decChars]
  rw [dite_eq_ite]

theorem decChars_ne_nil (n : Nat) : decChars n ≠ [] := by
  rw [decChars]
  split
  · simp
  · simp

theorem decChars_no_colon (n : Nat) : ':' ∉ decChars n := by
  induction n using Nat.strong_induction_on with
  | _ n ih =>
    rw [decChars]
    split
    · simp only [List.mem_singleton]
      intro h
      exact digitChar_ne_colon (by omega) h.symm
    · rename_i h
      simp only [List.mem_append, List.mem_singleton]
      push_neg
      refine ⟨ih (n / 10) (Nat.div_lt_self (by omega) (by omega)), ?_⟩
      intro hc
      exact digitChar_ne_colon (Nat.mod_lt _ (by omega)) hc.symm

theorem decChars_inj : ∀ {a b : Nat}, decChars a = decChars b → a = b := by
  intro a
  induction a using Nat.strong_induction_on with
  | _ a ih =>
    intro b h
    rw [decChars_eq a, decChars_eq b] at h
    split at h <;> split at h
    · rename_i ha hb
      simp only [List.cons.injEq] at h
      exact digitChar_inj10 ha hb h.1
    · rename_i ha hb
      exfalso
      have hlen := congrArg List.length h
      simp only [List.length_append, List.length_singleton, List.length_cons,
        List.length_nil] at hlen
      have hne := decChars_ne_nil (b / 10)
      have : (decChars (b / 10)).length ≠ 0 := fun h0 => hne (List.length_eq_zero.mp h0)
      omega
    · rename_i ha hb
      exfalso
      have hlen := congrArg List.length h
      simp only [List.length_append, List.length_singleton, List.length_cons,
        List.length_nil] at hlen
      have hne := decChars_ne_nil (a / 10)
      have : (decChars (a / 10)).length ≠ 0 := fun h0 => hne (List.length_eq_zero.mp h0)
      omega
    · rename_i ha hb
      have := List.append_inj' h (by simp)
      obtain ⟨h1, h2⟩ := this
      simp only [List.cons.injEq] at h2
      have hmod := digitChar_inj10 (Nat.mod_lt _ (by omega)) (Nat.mod_lt _ (by omega)) h2.1
      have hdiv := ih (a / 10) (Nat.div_lt_self (by omega) (by omega)) h1
      omega

theorem toDigitsCore_eq_decChars :
    ∀ (f n : Nat) (acc : List Char), n < f →
      Nat.toDigitsCore 10 f n acc = decChars n ++ acc := by
  intro f
  induction f with
  | zero => intro n acc h; omega
  | succ f ih =>
    intro n acc h
    rw [Nat.toDigitsCore]
    by_cases h0 : n / 10 = 0
    · have hn : n < 10 := by omega
      simp only [h0, if_true]
      conv_rhs => rw [decChars]
      simp [hn, Nat.mod_eq_of_lt hn]
    · simp only [h0, if_false]
      have hrec : n / 10 < f := by
        have h1 : n / 10 < n := Nat.div_lt_self (by omega) (by omega)
        omega
      rw [ih (n / 10) _ hrec]
      conv_rhs => rw [decChars]
      have hn : ¬ n < 10 := by
        intro hc
        exact h0 (Nat.div_eq_of_lt hc)
      simp [hn, List.append_assoc]

theorem repr_data (n : Nat) : (Nat.repr n).data = decChars n := by
  show (List.asString (Nat.toDigits 10 n)).data = decChars n
  rw [Nat.toDigits, toDigitsCore_eq_decChars (n + 1) n [] (by omega)]
  simp [List.asString]

theorem natRepr_inj {a b : Nat} (h : Nat.repr a = Nat.repr b) : a = b := by
  have := congrArg String.data h
  rw [repr_data, repr_data] at this
  exact decChars_inj this

theorem no_colon_append_inj :
    ∀ (l₁ l₂ r : List Char), ':' ∉ l₁ → ':' ∉ l₂ →
      l₁ ++ ':' :: r = l₂ ++ ':' :: r → l₁ = l₂ := by
  intro l₁
  induction l₁ with
  | nil =>
    intro l₂ r _ h2 h
    cases l₂ with
    | nil => rfl
    | cons c cs =>
      exfalso
      simp only [List.nil_append, List.cons_append, List.cons.injEq] at h
      exact h2 (h.1 ▸ List.mem_cons_self c cs)
  | cons c cs ih =>
    intro l₂ r h1 h2 h
    cases l₂ with
    | nil =>
      exfalso
      simp only [List.cons_append, List.nil_append, List.cons.injEq] at h
      exact h1 (h.1 ▸ List.mem_cons_self c cs)
    | cons d ds =>
      simp only [List.cons_append, List.cons.injEq] at h
      have := ih ds r (fun hm => h1 (List.mem_cons_of_mem c hm))
        (fun hm => h2 (List.mem_cons_of_mem d hm)) h.2
      rw [h.1, this]

theorem cacheKey_inj_version {v w : Nat} {p : String}
    (h : cacheKey v p = cacheKey w p) : v = w := by
  unfold cacheKey at h
  have hd := congrArg String.data h
  simp only [String.data_append, List.append_assoc] at hd
  have hd2 := List.append_cancel_left hd
  have hv : (toString v).data = (Nat.repr v).data := rfl
  have hw : (toString w).data = (Nat.repr w).data := rfl
  rw [hv, hw] at hd2
  have hdata := no_colon_append_inj (Nat.repr v).data (Nat.repr w).data p.data
    (by rw [repr_data]; exact decChars_no_colon v)
    (by rw [repr_data]; exact decChars_no_colon w) hd2
  exact natRepr_inj (String.ext hdata)

theorem cacheKey_ne_of_version_ne {v w : Nat} {p : String} (h : v ≠ w) :
    cacheKey v p ≠ cacheKey w p :=
  fun hc => h (cacheKey_inj_version hc)

theorem cacheGet_miss_state (v d now : Nat) (σ : RedisState) (pid : String)
    (h : (cacheGet v d σ now pid).1 = none) : (cacheGet v d σ now pid).2 = σ := by
  unfold cacheGet at *
  cases hg : redisGet σ now (cacheKey v pid) with
  | none => rfl
  | some e =>
    rw [hg] at h
    exact Option.noConfusion h

/-! ### Claim theorems -/

/-- C1: the spec claims the response validator never raises, but raw text
that parses as JSON whose top-level value is not an object (here `"null"`)
makes `RAGResponse(**parsed_json)` raise an uncaught `TypeError`: the
embedded `parse_structured_response` yields an escaping exception instead
of a conformant artifact, a degraded artifact, or a validation failure. -/
theorem c1_validator_raises_on_valid_nonobject_json :
    parse_structured_response "null" = .error .typeError ∧
    parse_structured_response "[1, 2]" = .error .typeError ∧
    parse_structured_response "42" = .error .typeError := by
  refine ⟨?_, ?_, ?_⟩ <;> rfl

/-- C4: a cache-store `get` hit increments the entry's `hit_count` by
exactly one and re-writes the entry preserving its remaining time-to-live:
the stored record keeps every other field (including `expires_at`) and the
Redis-level expiry instant is unchanged. -/
theorem c4_get_hit_increments_hit_count_preserving_expiry
    (v dttl now exp : Nat) (σ : RedisState) (pid : String)
    (e : MindMapCacheEntry)
    (hσ : σ (cacheKey v pid) = some (e, exp)) (hlive : now < exp) :
    (cacheGet v dttl σ now pid).1 = some e.mindmap ∧
    (cacheGet v dttl σ now pid).2 (cacheKey v pid) =
      some ({ e with hit_count := e.hit_count + 1 }, exp) := by
  have hpos : (0 : Int) < (exp : Int) - (now : Int) := by omega
  have hget : redisGet σ now (cacheKey v pid) = some e := by
    unfold redisGet
    rw [hσ]
    exact if_pos hlive
  have httl : redisTtl σ now (cacheKey v pid) = (exp : Int) - (now : Int) := by
    unfold redisTtl
    rw [hσ]
    exact if_pos hlive
  unfold cacheGet
  rw [hget]
  refine ⟨rfl, ?_⟩
  show redisSetEx σ now (cacheKey v pid)
      { e with hit_count := e.hit_count + 1 }
      (if redisTtl σ now (cacheKey v pid) > 0
       then (redisTtl σ now (cacheKey v pid)).toNat else dttl)
      (cacheKey v pid) = some ({ e with hit_count := e.hit_count + 1 }, exp)
  rw [httl]
  unfold redisSetEx
  rw [if_pos rfl, if_pos hpos]
  have htoNat : now + ((exp : Int) - (now : Int)).toNat = exp := by omega
  rw [htoNat]

/-- C5: an entry written while the configured cache version was `v` is
reported absent by `get` once the configured version has advanced to
`v' > v` — the key embeds the version — even though the entry itself is
still live (its expiry is unreached). -/
theorem c5_version_advance_masks_live_entry
    (v v' ttl dttl now goTime : Nat) (σ : RedisState) (m : MindMap)
    (hv : v < v')
    (habsent : σ (cacheKey v' m.paper_id) = none)
    (hfresh : goTime < now + ttl) :
    (cacheGet v' dttl (cacheSet v ttl σ now m) goTime m.paper_id).1 = none ∧
    redisGet (cacheSet v ttl σ now m) goTime (cacheKey v m.paper_id) =
      some ⟨m, v, 0, now, now + ttl⟩ := by
  have hne : cacheKey v' m.paper_id ≠ cacheKey v m.paper_id :=
    cacheKey_ne_of_version_ne (by omega)
  constructor
  · unfold cacheGet redisGet cacheSet redisSetEx
    simp only [if_neg hne, habsent]
  · unfold cacheSet redisSetEx redisGet
    simp only [if_pos rfl, hfresh, if_true]

/-- C10: `invalidate` deletes exactly the key of the currently configured
cache version; an entry for the same paper cached under any other version
is untouched and still readable until its TTL elapses. -/
theorem c10_invalidate_deletes_only_configured_version
    (v w : Nat) (σ : RedisState) (pid : String) (hw : w ≠ v) :
    (cacheInvalidate v σ pid) (cacheKey v pid) = none ∧
    (cacheInvalidate v σ pid) (cacheKey w pid) = σ (cacheKey w pid) ∧
    (∀ now, redisGet (cacheInvalidate v σ pid) now (cacheKey w pid) =
      redisGet σ now (cacheKey w pid)) := by
  have hne : cacheKey w pid ≠ cacheKey v pid := cacheKey_ne_of_version_ne hw
  refine ⟨?_, ?_, ?_⟩
  · simp [cacheInvalidate, redisDel]
  · simp [cacheInvalidate, redisDel, hne]
  · intro now
    simp [cacheInvalidate, redisDel, redisGet, hne]

/-- C3: in the single-key orchestrator, when the cache misses and
generation (or validation) fails, the call returns the error unchanged and
the cache state is exactly what it was — no degraded placeholder is ever
written. -/
theorem c3_generation_failure_is_surfaced_and_never_cached
    (version dttl ttl now : Nat) (σ : RedisState)
    (paper_id arxiv_id paper_title : String) (chunks : List Chunk)
    (llm : Except OllamaError String) (model_used : String) (e : ServiceErr)
    (hmiss : (cacheGet version dttl σ now paper_id).1 = none)
    (hgen : mmGenerate paper_id arxiv_id paper_title chunks llm now model_used
      = .error e) :
    get_or_generate version dttl ttl σ now paper_id arxiv_id paper_title
      chunks llm model_used = (.error e, σ) := by
  have hstate := cacheGet_miss_state version dttl now σ paper_id hmiss
  unfold get_or_generate
  rcases hcg : cacheGet version dttl σ now paper_id with ⟨fst, snd⟩
  rw [hcg] at hmiss hstate
  simp only at hmiss hstate
  subst hmiss hstate
  simp only [hgen]

theorem filterMap_id_map {α β : Type} (f : α → Option β) (l : List α) :
    (l.map f).filterMap id = l.filterMap f := by
  induction l with
  | nil => rfl
  | cons x xs ih =>
    cases hx : f x <;> simp [List.filterMap_cons, hx, ih]

/-- C2: `_regenerate` returns exactly the successful summaries among the
attempted candidates (the first `2 × targetCount` of the supplied list), in
original candidate order, truncated to the first `targetCount`; a failed
candidate is merely absent (so fewer — possibly zero — results are valid);
with zero candidates the result is empty and no inference call is issued,
and otherwise exactly one inference call is issued per attempted
candidate. -/
theorem c2_regenerate_first_successes_in_candidate_order
    (gen : String → Except OllamaError (Option String)) (category : String)
    (candidates : List Paper) (limit now ttl : Nat) :
    (regenerate gen category candidates limit now ttl).cards
      = ((candidates.take (limit * 2)).filterMap
          (summarize_paper gen category)).take limit ∧
    (regenerate gen category candidates limit now ttl).cards.length ≤ limit ∧
    (candidates = [] →
      regenerate gen category candidates limit now ttl = ⟨[], 0, none⟩) ∧
    (candidates ≠ [] →
      (regenerate gen category candidates limit now ttl).inferenceCalls
        = min (limit * 2) candidates.length) := by
  by_cases hc : candidates = []
  · subst hc
    refine ⟨by simp [regenerate], by simp [regenerate], fun _ => rfl, fun h => absurd rfl h⟩
  · have hne : ¬ candidates.isEmpty := by
      cases candidates with
      | nil => exact absurd rfl hc
      | cons a as => simp
    refine ⟨?_, ?_, fun h => absurd h hc, fun _ => ?_⟩
    · unfold regenerate
      rw [if_neg hne]
      simp only [filterMap_id_map]
    · unfold regenerate
      rw [if_neg hne]
      simp only
      exact List.length_take_le _ _
    · unfold regenerate
      rw [if_neg hne]
      simp only
      exact List.length_take _ _

theorem sumLens_cons (b : String) (l : List String) :
    sumLens (b :: l) = b.length + sumLens l := by
  simp [sumLens]

theorem strJoin_cons (b : String) (l : List String) :
    strJoin (b :: l) = b ++ strJoin l := rfl

theorem joinNL_glue (a b : String) (l : List String) :
    joinNL ((a ++ "\n" ++ b) :: l) = joinNL (a :: b :: l) := by
  cases l with
  | nil => rfl
  | cons c l' =>
    show (a ++ "\n" ++ b) ++ "\n" ++ joinNL (c :: l')
      = a ++ "\n" ++ (b ++ "\n" ++ joinNL (c :: l'))
    simp [String.append_assoc]

theorem assembleGo_spec (budget : Nat) :
    ∀ (blocks : List String) (remaining : Nat), remaining ≤ budget →
      ∃ k, k ≤ blocks.length ∧ sumLens (blocks.take k) ≤ remaining ∧
        ((assembleGo budget remaining blocks = strJoin (blocks.take k) ∧
          (k = blocks.length ∨ remaining < sumLens (blocks.take (k + 1)))) ∨
         (∃ c rest', blocks.drop k = c :: rest' ∧ budget < c.length ∧
           assembleGo budget remaining blocks
             = strJoin (blocks.take k) ++ c.take (remaining - sumLens (blocks.take k)))) := by
  intro blocks
  induction blocks with
  | nil =>
    intro remaining _
    exact ⟨0, by simp, by simp [sumLens], Or.inl ⟨rfl, Or.inl rfl⟩⟩
  | cons b rest ih =>
    intro remaining hrb
    by_cases hfit : b.length ≤ remaining
    · obtain ⟨k, hk, hsum, hbr⟩ := ih (remaining - b.length) (le_trans (Nat.sub_le _ _) hrb)
      refine ⟨k + 1, by simp only [List.length_cons]; omega, ?_, ?_⟩
      · rw [List.take_succ_cons, sumLens_cons]
        omega
      · rcases hbr with ⟨heq, hstop⟩ | ⟨c, rest', hdrop, hbig, heq⟩
        · left
          constructor
          · simp only [assembleGo, if_pos hfit]
            rw [heq, List.take_succ_cons, strJoin_cons]
          · rcases hstop with h | h
            · left
              simp [h]
            · right
              rw [List.take_succ_cons, sumLens_cons]
              omega
        · right
          refine ⟨c, rest', by simpa using hdrop, hbig, ?_⟩
          simp only [assembleGo, if_pos hfit]
          rw [heq, List.take_succ_cons, strJoin_cons, String.append_assoc]
          have harg : remaining - b.length - sumLens (List.take k rest)
              = remaining - sumLens (b :: List.take k rest) := by
            rw [sumLens_cons]
            omega
          rw [harg]
    · by_cases hbig : budget < b.length
      · refine ⟨0, by simp, by simp [sumLens], Or.inr ⟨b, rest, rfl, hbig, ?_⟩⟩
        simp only [assembleGo, if_neg hfit, if_pos hbig]
        simp [strJoin, sumLens, String.empty_append]
      · refine ⟨0, by simp, by simp [sumLens], Or.inl ⟨?_, Or.inr ?_⟩⟩
        · simp only [assembleGo, if_neg hfit, if_neg hbig]
          rfl
        · rw [List.take_succ_cons, List.take_zero, sumLens_cons]
          simp [sumLens]
          omega

theorem lookup_cons (lab l t : String) (rest : List (String × String)) :
    List.lookup lab ((l, t) :: rest) = if lab = l then some t else List.lookup lab rest := by
  by_cases h : lab = l
  · subst h
    simp [List.lookup]
  · have h' : (lab == l) = false := beq_eq_false_iff_ne.mpr h
    simp [List.lookup, h', h]

theorem addPassage_lookup (groups : List (String × String)) (p : Passage)
    (lab : String) :
    (addPassage groups p).lookup lab =
      if p.section_label = lab then
        match groups.lookup lab with
        | some t => some (t ++ "\n" ++ p.text)
        | none => some p.text
      else groups.lookup lab := by
  induction groups with
  | nil =>
    simp only [addPassage, lookup_cons, List.lookup_nil]
    by_cases h : p.section_label = lab
    · rw [if_pos h.symm, if_pos h]
    · rw [if_neg (fun hc => h hc.symm), if_neg h]
  | cons g rest ih =>
    obtain ⟨l, t⟩ := g
    simp only [addPassage]
    by_cases hl : l = p.section_label
    · rw [if_pos hl]
      simp only [lookup_cons]
      by_cases h : lab = l
      · have hpl : p.section_label = lab := by rw [← hl, h]
        rw [if_pos h, if_pos hpl, if_pos h]
      · have hpl : ¬ p.section_label = lab := by
          rw [← hl]
          exact fun hc => h hc.symm
        rw [if_neg h, if_neg hpl, if_neg h]
    · rw [if_neg hl]
      by_cases h : lab = l
      · have hpl : ¬ p.section_label = lab := fun hc => hl (hc.trans h).symm
        rw [lookup_cons, if_pos h, if_neg hpl, lookup_cons, if_pos h]
      · rw [lookup_cons, if_neg h, ih, lookup_cons, if_neg h]

theorem foldl_addPassage_lookup :
    ∀ (ps : List Passage) (acc : List (String × String)) (lab : String),
      (ps.foldl addPassage acc).lookup lab =
        match acc.lookup lab,
          (ps.filter (fun p => p.section_label = lab)).map Passage.text with
        | none, [] => none
        | none, t :: ts => some (joinNL (t :: ts))
        | some t0, ts => some (joinNL (t0 :: ts)) := by
  intro ps
  induction ps with
  | nil =>
    intro acc lab
    cases h : acc.lookup lab <;> simp [h, joinNL]
  | cons p ps' ih =>
    intro acc lab
    rw [List.foldl_cons, ih, addPassage_lookup]
    by_cases hl : p.section_label = lab
    · rw [if_pos hl]
      have hfilter : List.filter (fun q => decide (q.section_label = lab)) (p :: ps')
          = p :: List.filter (fun q => decide (q.section_label = lab)) ps' := by
        simp [List.filter_cons, hl]
      rw [hfilter, List.map_cons]
      cases h : List.lookup lab acc with
      | none => rfl
      | some t0 =>
        show some (joinNL ((t0 ++ "\n" ++ p.text) :: _)) = _
        rw [joinNL_glue]
    · rw [if_neg hl]
      have hfilter : List.filter (fun q => decide (q.section_label = lab)) (p :: ps')
          = List.filter (fun q => decide (q.section_label = lab)) ps' := by
        simp [List.filter_cons, hl]
      rw [hfilter]

/-- C6: the concept-graph prompt builder ignores denylisted boilerplate
sections entirely; grouping concatenates, per section label, the passage
texts in original passage order; and the greedy assembly truncates at the
last complete section boundary that fits the character budget, splitting a
block only when that block alone exceeds the full budget. -/
theorem c6_concept_graph_prompt_grouping_and_truncation :
    (∀ title eid (ps : List Passage),
      buildConceptGraphPrompt title eid ps
        = buildConceptGraphPrompt title eid (ps.filter keepPassage)) ∧
    (∀ (ps : List Passage) (lab : String),
      (groupPassages ps).lookup lab
        = match (ps.filter (fun p => p.section_label = lab)).map Passage.text with
          | [] => none
          | t :: ts => some (joinNL (t :: ts))) ∧
    (∀ (budget : Nat) (blocks : List String),
      ∃ k, k ≤ blocks.length ∧ sumLens (blocks.take k) ≤ budget ∧
        ((assembleSections budget blocks = strJoin (blocks.take k) ∧
          (k = blocks.length ∨ budget < sumLens (blocks.take (k + 1)))) ∨
         (∃ c rest', blocks.drop k = c :: rest' ∧ budget < c.length ∧
           assembleSections budget blocks
             = strJoin (blocks.take k) ++ c.take (budget - sumLens (blocks.take k))))) := by
  refine ⟨?_, ?_, ?_⟩
  · intro title eid ps
    unfold buildConceptGraphPrompt sectionBlocks
    rw [List.filter_filter]
    have hf : (fun a => keepPassage a && keepPassage a) = fun a => keepPassage a :=
      funext fun a => Bool.and_self _
    rw [hf]
  · intro ps lab
    unfold groupPassages
    rw [foldl_addPassage_lookup ps [] lab, List.lookup_nil]
    cases hx : (ps.filter (fun p => p.section_label = lab)).map Passage.text with
    | nil => rfl
    | cons t ts => rfl
  · intro budget blocks
    exact assembleGo_spec budget blocks budget le_rfl

theorem jvalue_sizeOf_pos (j : JValue) : 0 < sizeOf j := by
  cases j <;> simp_arith

theorem mapM_option_mem {α β : Type} (f : α → Option β) :
    ∀ (l : List α) (ys : List β), l.mapM f = some ys →
      ∀ y ∈ ys, ∃ x, x ∈ l ∧ f x = some y := by
  intro l
  induction l with
  | nil =>
    intro ys h y hy
    rw [List.mapM_nil] at h
    cases h
    simp at hy
  | cons x xs ih =>
    intro ys h y hy
    rw [List.mapM_cons] at h
    cases hfx : f x with
    | none => rw [hfx] at h; simp at h
    | some b =>
      rw [hfx] at h
      cases hxs : xs.mapM f with
      | none => rw [hxs] at h; simp at h
      | some bs =>
        rw [hxs] at h
        simp at h
        subst h
        rcases List.mem_cons.mp hy with rfl | hmem
        · exact ⟨x, List.mem_cons_self x xs, hfx⟩
        · obtain ⟨x', hx', hfx'⟩ := ih bs hxs y hmem
          exact ⟨x', List.mem_cons_of_mem x hx', hfx'⟩

theorem children_sizeOf_lt (n : MindMapNode) : sizeOf n.children < sizeOf n := by
  cases n with
  | mk id label descr ntype imp ssec cs =>
    simp [MindMapNode.children]

theorem subnode_sizeOf_le {m n : MindMapNode} (h : Subnode m n) :
    sizeOf m ≤ sizeOf n := by
  induction h with
  | refl => exact le_rfl
  | @child c n' hc _ ih =>
    have h1 := List.sizeOf_lt_of_mem hc
    have h2 := children_sizeOf_lt n'
    omega

theorem validateNode_kinds :
    ∀ (N : Nat) (j : JValue), sizeOf j ≤ N →
      ∀ (n : MindMapNode), validateNode j = some n →
        ∀ m, Subnode m n →
          m.node_type ∈ allowedNodeTypes ∧ m.importance ∈ allowedImportance := by
  intro N
  induction N with
  | zero =>
    intro j hsize
    exact absurd hsize (by have := jvalue_sizeOf_pos j; omega)
  | succ N ih =>
    intro j hsize n hval m hsub
    cases j with
    | null => simp [validateNode] at hval
    | bool b => simp [validateNode] at hval
    | num a e => simp [validateNode] at hval
    | str s => simp [validateNode] at hval
    | arr xs => simp [validateNode] at hval
    | obj fs =>
      rw [validateNode] at hval
      split at hval <;> try exact Option.noConfusion hval
      rename_i id hid
      split at hval <;> try exact Option.noConfusion hval
      rename_i label hlabel
      split at hval <;> try exact Option.noConfusion hval
      rename_i descr hdescr
      split at hval <;> try exact Option.noConfusion hval
      rename_i ntype hntype
      split at hval <;> try exact Option.noConfusion hval
      rename_i hnt
      split at hval <;> try exact Option.noConfusion hval
      rename_i imp himp
      split at hval <;> try exact Option.noConfusion hval
      rename_i him
      split at hval <;> try exact Option.noConfusion hval
      rename_i ssec hssec
      split at hval <;> try exact Option.noConfusion hval
      · -- children key absent: leaf node
        cases hval
        cases hsub with
        | refl => exact ⟨hnt, him⟩
        | child hc _ => simp [MindMapNode.children] at hc
      · -- children key a JSON array
        rename_i xs hch
        split at hval <;> try exact Option.noConfusion hval
        rename_i children hmap
        cases hval
        cases hsub with
        | refl => exact ⟨hnt, him⟩
        | child hc hsub' =>
          rename_i c
          simp only [MindMapNode.children] at hc
          obtain ⟨x, hxmem, hxval⟩ := mapM_option_mem _ _ _ hmap c hc
          have hsz : sizeOf x.1 ≤ N := by
            have h1 := objGet_sizeOf_lt hch
            have h2 := List.sizeOf_lt_of_mem x.2
            simp only [JValue.obj.sizeOf_spec, JValue.arr.sizeOf_spec] at *
            omega
          exact ih x.1 hsz c hxval m hsub'

/-- C7 counterexample: a payload whose root node has `node_type`
`"concept"` (not `"root"`) is accepted by `_parse`/`model_validate` — the
claimed rejection of non-root root kinds does not happen. -/
theorem c7_counterexample_nonroot_kind_accepted :
    mmParse "\x7b\"root\": \x7b\"id\": \"a\", \"label\": \"A\", \"node_type\": \"concept\", \"importance\": \"primary\"\x7d\x7d"
        "p1" "2401.00001" "T" 0 "m"
      = .ok ⟨"p1", "2401.00001", "T",
          .mk "a" "A" none "concept" "primary" none [], [], 0, "m"⟩ ∧
    MindMapNode.node_type (.mk "a" "A" none "concept" "primary" none []) ≠ "root" := by
  constructor
  · have hjson : jsonLoads (stripFence "\x7b\"root\": \x7b\"id\": \"a\", \"label\": \"A\", \"node_type\": \"concept\", \"importance\": \"primary\"\x7d\x7d")
        = some (.obj [("root", .obj [("id", .str "a"), ("label", .str "A"),
            ("node_type", .str "concept"), ("importance", .str "primary")])]) := by rfl
    have hnode : validateNode (.obj [("id", .str "a"), ("label", .str "A"),
          ("node_type", .str "concept"), ("importance", .str "primary")])
        = some (.mk "a" "A" none "concept" "primary" none []) := by
      simp [validateNode, objGet, optStrOfJ, allowedNodeTypes, allowedImportance]
    simp [mmParse, hjson, hnode, objGet]
    rfl
  · decide

/-- C7 amended: validation checks that every node's `node_type` lies in the
seven-kind literal set and every `importance` in the three-level set, but
does not require the root's kind to be `root`; and in a validated tree no
node recurs as its own strict descendant (the parsed payload is a finite
tree by construction — cycles are unrepresentable). -/
theorem c7_amended_validated_tree_kinds_and_acyclicity
    (j : JValue) (n : MindMapNode) (hval : validateNode j = some n) :
    (∀ m, Subnode m n →
      m.node_type ∈ allowedNodeTypes ∧ m.importance ∈ allowedImportance) ∧
    (∀ m c, c ∈ n.children → Subnode m c → m ≠ n) := by
  constructor
  · exact fun m hsub => validateNode_kinds (sizeOf j) j le_rfl n hval m hsub
  · intro m c hc hsub heq
    have h1 := subnode_sizeOf_le hsub
    have h2 := List.sizeOf_lt_of_mem hc
    have h3 := children_sizeOf_lt n
    rw [heq] at h1
    omega

/-- Witness for the C7 amended theorem at a concrete validated payload. -/
theorem c7_amended_witness :
    validateNode (JValue.obj [("id", .str "r"), ("label", .str "R"),
        ("node_type", .str "root"), ("importance", .str "primary")])
      = some (.mk "r" "R" none "root" "primary" none []) ∧
    (MindMapNode.node_type (.mk "r" "R" none "root" "primary" none [])
        ∈ allowedNodeTypes ∧
      MindMapNode.importance (.mk "r" "R" none "root" "primary" none [])
        ∈ allowedImportance) := by
  have hv : validateNode (JValue.obj [("id", .str "r"), ("label", .str "R"),
        ("node_type", .str "root"), ("importance", .str "primary")])
      = some (.mk "r" "R" none "root" "primary" none []) := by
    simp [validateNode, objGet, optStrOfJ, allowedNodeTypes, allowedImportance]
  exact ⟨hv, (c7_amended_validated_tree_kinds_and_acyclicity _ _ hv).1 _
    (Subnode.refl _)⟩

theorem objGet_objUpsert (fields : List (String × JValue)) (k : String)
    (v : JValue) (k' : String) :
    objGet (objUpsert fields k v) k' = if k' = k then some v else objGet fields k' := by
  induction fields with
  | nil =>
    by_cases h : k' = k
    · subst h
      simp [objUpsert, objGet]
    · have h' : ¬ k = k' := fun hc => h hc.symm
      simp [objUpsert, objGet, h, h']
  | cons kv rest ih =>
    obtain ⟨k₀, v₀⟩ := kv
    by_cases h0 : k₀ = k
    · subst h0
      by_cases h : k' = k₀
      · subst h
        simp [objUpsert, objGet]
      · have h' : ¬ k₀ = k' := fun hc => h hc.symm
        simp [objUpsert, objGet, h, h']
    · by_cases h : k' = k₀
      · subst h
        have h0' : ¬ k = k' := fun hc => h0 hc.symm
        simp [objUpsert, objGet, h0, h0']
      · have h' : ¬ k₀ = k' := fun hc => h hc.symm
        simp [objUpsert, objGet, h0, h, h', ih]

/-- C8 counterexample: a flashcard-path payload with the confidence field
absent is parsed with confidence `"unknown"` (the schema default), not the
claimed `"medium"`. -/
theorem c8_counterexample_flashcard_confidence_default :
    parse_structured_response "\x7b\"answer\": \"hi\"\x7d"
      = .ok ⟨"hi", [], [], ⟨"unknown", false, false, []⟩⟩ ∧
    ("unknown" : String) ≠ "medium" := by
  constructor
  · rfl
  · decide

/-- C8 amended: when the confidence field is absent, the documented defaults
are `"unknown"` for flashcard parsing (the `RAGResponse`/`ResponseMetadata`
schema default) and `"medium"` for structured RAG answers
(`generate_rag_answer` fills a missing top-level `confidence` with
`"medium"`) — the two values are swapped relative to the claim. -/
theorem c8_amended_confidence_defaults :
    (∀ (fs : List (String × JValue)) (r : RAGResponse),
      objGet fs "confidence" = none →
      objGet fs "legacy_confidence" = none →
      objGet fs "metadata" = none →
      ragOfFields fs = some r →
      r.metadata.confidence = "unknown") ∧
    (∀ (o : List (String × JValue)) (chunks : List (List (String × JValue)))
        (r : RagAnswer),
      objGet o "confidence" = none →
      generateRagAnswerValidate (some (.obj o)) chunks = .ok r →
      r.confidence = .str "medium") := by
  constructor
  · intro fs r hconf hleg hmeta h
    rw [ragOfFields] at h
    split at h
    · split at h <;> try exact Option.noConfusion h
      rename_i answer hans
      split at h <;> try exact Option.noConfusion h
      rename_i sources hsrc
      split at h <;> try exact Option.noConfusion h
      rename_i citations hcit
      split at h <;> try exact Option.noConfusion h
      rename_i metadata hmd
      split at h <;> try exact Option.noConfusion h
      rename_i legacy hlegf
      cases h
      have hmd' : metadata = ResponseMetadata.default := by
        unfold metadataField at hmd
        rw [hmeta] at hmd
        exact (Option.some.inj hmd).symm
      have hleg' : legacy = none := by
        unfold legacyField at hlegf
        simp only [hconf, hleg] at hlegf
        exact (Option.some.inj hlegf).symm
      subst hmd' hleg'
      rfl
    · exact Option.noConfusion h
  · intro o chunks r hconf h
    simp only [generateRagAnswerValidate] at h
    split at h <;> try exact Except.noConfusion h
    rename_i a hans
    split at h
    · split at h <;> try exact Except.noConfusion h
      rename_i o₁ hsrc
      split at h <;> try exact Except.noConfusion h
      rename_i o₂ hcit
      -- the intermediate dictionaries still lack a confidence key
      have hco₁ : objGet o₁ "confidence" = none := by
        split at hsrc
        · split at hsrc
          · exact (Except.ok.inj hsrc) ▸ hconf
          · unfold fillSources at hsrc
            split at hsrc
            · rw [← Except.ok.inj hsrc, objGet_objUpsert]
              simp [hconf]
            · exact Except.noConfusion hsrc
        · unfold fillSources at hsrc
          split at hsrc
          · rw [← Except.ok.inj hsrc, objGet_objUpsert]
            simp [hconf]
          · exact Except.noConfusion hsrc
      have hco₂ : objGet o₂ "confidence" = none := by
        split at hcit
        · split at hcit
          · exact (Except.ok.inj hcit) ▸ hco₁
          · unfold fillCitations at hcit
            split at hcit
            · rw [← Except.ok.inj hcit, objGet_objUpsert]
              simp [hco₁]
            · exact Except.noConfusion hcit
        · unfold fillCitations at hcit
          split at hcit
          · rw [← Except.ok.inj hcit, objGet_objUpsert]
            simp [hco₁]
          · exact Except.noConfusion hcit
      split at h
      · rename_i val hc2
        rw [hco₂] at hc2
        exact Option.noConfusion hc2
      · cases h
        simp [mkRagAnswer, objGet_objUpsert]
    · exact Except.noConfusion h

/-- Witness for C2 at concrete inputs: an empty candidate list yields no
cards and no inference calls; a batch whose only candidate fails yields an
empty card list without aborting. -/
theorem c2_regenerate_witness :
    regenerate (fun _ => Except.error OllamaError.protocolFailure) "cs.AI"
        [] 5 0 86400 = ⟨[], 0, none⟩ ∧
    (regenerate (fun _ => Except.error OllamaError.protocolFailure) "cs.AI"
        [⟨"2401.00001", "T", none, none, none⟩] 3 0 86400).cards = [] := by
  constructor
  · exact (c2_regenerate_first_successes_in_candidate_order
      (fun _ => Except.error OllamaError.protocolFailure) "cs.AI" [] 5 0 86400).2.2.1 rfl
  · rw [(c2_regenerate_first_successes_in_candidate_order
      (fun _ => Except.error OllamaError.protocolFailure) "cs.AI"
      [⟨"2401.00001", "T", none, none, none⟩] 3 0 86400).1]
    rfl

/-- Witness for C3: a miss on an empty cache followed by a failing
generation surfaces the error and leaves the cache state untouched. -/
theorem c3_failure_not_cached_witness :
    (cacheGet 1 60 (fun _ => none) 0 "p").1 = none ∧
    mmGenerate "p" "2401.00001" "T" [] (Except.error OllamaError.connectionFailure)
        0 "m" = .error (.genFailure "No chunks found for paper_id=p") ∧
    get_or_generate 1 60 300 (fun _ => none) 0 "p" "2401.00001" "T" []
        (Except.error OllamaError.connectionFailure) "m"
      = (.error (.genFailure "No chunks found for paper_id=p"), fun _ => none) := by
  refine ⟨rfl, rfl, ?_⟩
  exact c3_generation_failure_is_surfaced_and_never_cached 1 60 300 0
    (fun _ => none) "p" "2401.00001" "T" []
    (Except.error OllamaError.connectionFailure) "m" _ rfl rfl

/-- Witness for C4 on a concrete one-entry cache state. -/
theorem c4_get_hit_witness :
    ((fun k => if k = cacheKey 1 "p" then
        some (⟨⟨"p", "2401.00001", "T", .mk "r" "R" none "root" "primary" none [],
          [], 0, "m"⟩, 1, 5, 0, 10⟩, 10) else none : RedisState) (cacheKey 1 "p")
      = some (⟨⟨"p", "2401.00001", "T", .mk "r" "R" none "root" "primary" none [],
          [], 0, "m"⟩, 1, 5, 0, 10⟩, 10) ∧ 3 < 10) ∧
    ((cacheGet 1 60 (fun k => if k = cacheKey 1 "p" then
        some (⟨⟨"p", "2401.00001", "T", .mk "r" "R" none "root" "primary" none [],
          [], 0, "m"⟩, 1, 5, 0, 10⟩, 10) else none) 3 "p").1
      = some ⟨"p", "2401.00001", "T", .mk "r" "R" none "root" "primary" none [],
          [], 0, "m"⟩ ∧
     (cacheGet 1 60 (fun k => if k = cacheKey 1 "p" then
        some (⟨⟨"p", "2401.00001", "T", .mk "r" "R" none "root" "primary" none [],
          [], 0, "m"⟩, 1, 5, 0, 10⟩, 10) else none) 3 "p").2 (cacheKey 1 "p")
      = some (⟨⟨"p", "2401.00001", "T", .mk "r" "R" none "root" "primary" none [],
          [], 0, "m"⟩, 1, 6, 0, 10⟩, 10)) := by
  refine ⟨⟨by rfl, by omega⟩, ?_⟩
  exact c4_get_hit_increments_hit_count_preserving_expiry 1 60 3 10
    (fun k => if k = cacheKey 1 "p" then
      some (⟨⟨"p", "2401.00001", "T", .mk "r" "R" none "root" "primary" none [],
        [], 0, "m"⟩, 1, 5, 0, 10⟩, 10) else none) "p"
    ⟨⟨"p", "2401.00001", "T", .mk "r" "R" none "root" "primary" none [],
      [], 0, "m"⟩, 1, 5, 0, 10⟩ (by rfl) (by omega)

/-- Witness for C5: an entry cached under version 1 is invisible to a reader
configured with version 2 even though it is still live. -/
theorem c5_version_advance_witness :
    ((1 : Nat) < 2 ∧
      ((fun _ => none : RedisState) (cacheKey 2 "p") = none) ∧ 50 < 0 + 100) ∧
    ((cacheGet 2 60 (cacheSet 1 100 (fun _ => none) 0
        ⟨"p", "2401.00001", "T", .mk "r" "R" none "root" "primary" none [],
          [], 0, "m"⟩) 50 "p").1 = none ∧
     redisGet (cacheSet 1 100 (fun _ => none) 0
        ⟨"p", "2401.00001", "T", .mk "r" "R" none "root" "primary" none [],
          [], 0, "m"⟩) 50 (cacheKey 1 "p")
      = some ⟨⟨"p", "2401.00001", "T", .mk "r" "R" none "root" "primary" none [],
          [], 0, "m"⟩, 1, 0, 0, 0 + 100⟩) := by
  refine ⟨⟨by omega, rfl, by omega⟩, ?_⟩
  exact c5_version_advance_masks_live_entry 1 2 100 60 0 50 (fun _ => none) _
    (by omega) rfl (by omega)

/-- Witness for C10 on a concrete state: invalidating under version 2
removes only the version-2 key. -/
theorem c10_invalidate_witness :
    ((1 : Nat) ≠ 2 ∧
      (cacheInvalidate 2 (fun _ => some (⟨⟨"p", "2401.00001", "T",
          .mk "r" "R" none "root" "primary" none [], [], 0, "m"⟩, 1, 0, 0, 9⟩, 9))
        "p") (cacheKey 2 "p") = none) ∧
    (cacheInvalidate 2 (fun _ => some (⟨⟨"p", "2401.00001", "T",
        .mk "r" "R" none "root" "primary" none [], [], 0, "m"⟩, 1, 0, 0, 9⟩, 9))
      "p") (cacheKey 1 "p")
      = some (⟨⟨"p", "2401.00001", "T",
          .mk "r" "R" none "root" "primary" none [], [], 0, "m"⟩, 1, 0, 0, 9⟩, 9) := by
  refine ⟨⟨by omega, ?_⟩, ?_⟩
  · exact (c10_invalidate_deletes_only_configured_version 2 1 _ "p" (by omega)).1
  · exact (c10_invalidate_deletes_only_configured_version 2 1 _ "p" (by omega)).2.1

/-- Witness for the C8 amended theorem at concrete payloads. -/
theorem c8_amended_witness :
    (objGet [("answer", JValue.str "hi")] "confidence" = none ∧
     objGet [("answer", JValue.str "hi")] "legacy_confidence" = none ∧
     objGet [("answer", JValue.str "hi")] "metadata" = none ∧
     ragOfFields [("answer", JValue.str "hi")]
       = some ⟨"hi", [], [], ⟨"unknown", false, false, []⟩, none⟩) ∧
    (RAGResponse.metadata ⟨"hi", [], [], ⟨"unknown", false, false, []⟩, none⟩).confidence
      = "unknown" ∧
    generateRagAnswerValidate (some (.obj [("answer", JValue.str "hi")])) []
      = .ok ⟨.str "hi", .arr [], .arr [], .str "medium"⟩ ∧
    RagAnswer.confidence ⟨.str "hi", .arr [], .arr [], .str "medium"⟩
      = .str "medium" := by
  refine ⟨⟨rfl, rfl, rfl, rfl⟩, ?_, rfl, ?_⟩
  · exact c8_amended_confidence_defaults.1 [("answer", JValue.str "hi")] _ rfl rfl rfl rfl
  · exact c8_amended_confidence_defaults.2 [("answer", JValue.str "hi")] [] _ rfl rfl

theorem mmParse_unhandled_shape (raw pid aid title : String) (now : Nat)
    (mu : String)
    (h : mmParse raw pid aid title now mu = .error .unhandledExc) :
    ∃ o rv root, jsonLoads (stripFence raw) = some (.obj o) ∧
      objGet o "root" = some rv ∧ validateNode rv = some root ∧
      ((∃ jv, objGet o "paper_title" = some jv ∧ ∀ s, jv ≠ .str s) ∨
       (∃ jv, objGet o "sections_covered" = some jv ∧ strListOfJ jv = none)) := by
  unfold mmParse at h
  split at h <;> try exact ServiceErr.noConfusion (Except.error.inj h)
  rename_i o hjson
  split at h <;> try exact ServiceErr.noConfusion (Except.error.inj h)
  rename_i rv hroot
  split at h <;> try exact ServiceErr.noConfusion (Except.error.inj h)
  rename_i root hval
  refine ⟨o, rv, root, hjson, hroot, hval, ?_⟩
  repeat' split at h
  all_goals
    first
      | exact Except.noConfusion h
      | exact Or.inr ⟨_, by assumption, by assumption⟩
      | exact Or.inl ⟨_, by assumption, by assumption⟩

theorem mmGenerate_unhandled (pid aid t : String) (chunks : List Chunk)
    (llm : Except OllamaError String) (now : Nat) (mu : String)
    (h : mmGenerate pid aid t chunks llm now mu = .error .unhandledExc) :
    chunks ≠ [] ∧ ∃ raw, llm = .ok raw ∧
      mmParse raw pid aid t now mu = .error .unhandledExc := by
  unfold mmGenerate at h
  split at h
  · exact absurd (Except.error.inj h) (by simp)
  · rename_i hne
    constructor
    · intro hc
      subst hc
      simp at hne
    · split at h <;> try exact ServiceErr.noConfusion (Except.error.inj h)
      rename_i raw
      exact ⟨raw, rfl, h⟩

theorem get_or_generate_error (v dttl ttl now : Nat) (pid aid t : String)
    (chunks : List Chunk) (llm : Except OllamaError String) (mu : String)
    (σ σ' : RedisState) (e : ServiceErr)
    (h : get_or_generate v dttl ttl σ now pid aid t chunks llm mu
      = (.error e, σ')) :
    (cacheGet v dttl σ now pid).1 = none ∧
    mmGenerate pid aid t chunks llm now mu = .error e := by
  unfold get_or_generate at h
  rcases hcg : cacheGet v dttl σ now pid with ⟨copt, σ₁⟩
  rw [hcg] at h
  cases copt with
  | some m => simp at h
  | none =>
    cases hg : mmGenerate pid aid t chunks llm now mu with
    | error ge =>
      rw [hg] at h
      simp only [Prod.mk.injEq] at h
      exact ⟨rfl, h.1⟩
    | ok gm =>
      rw [hg] at h
      simp at h

/-- C9 amended: the mind-map route returns the artifact on success, 404
exactly when the paper is missing, 422 exactly when the paper exists but no
chunks are indexed, and 502 when generation raises a classified
`MindMapGenerationError`; however, not every generation failure is
classified — an unhandled error escapes exactly from the corner where the
payload's root validates but a top-level `paper_title` or
`sections_covered` field carries a wrongly-typed value, and only on a
cache miss with a successful LLM call. -/
theorem c9_amended_route_outcome_classification
    (paper : Option PaperRow) (chunks : List Chunk) (v dttl ttl : Nat)
    (σ : RedisState) (now : Nat) (pid : String)
    (llm : Except OllamaError String) (mu : String) :
    ((get_mindmap paper chunks v dttl ttl σ now pid llm mu).1
        = RouterResult.notFound ↔ paper = none) ∧
    ((get_mindmap paper chunks v dttl ttl σ now pid llm mu).1
        = RouterResult.unprocessable ↔ paper.isSome ∧ chunks = []) ∧
    ((∃ m, (get_mindmap paper chunks v dttl ttl σ now pid llm mu).1
        = RouterResult.ok m) ∨
      (get_mindmap paper chunks v dttl ttl σ now pid llm mu).1
        = RouterResult.notFound ∨
      (get_mindmap paper chunks v dttl ttl σ now pid llm mu).1
        = RouterResult.unprocessable ∨
      (get_mindmap paper chunks v dttl ttl σ now pid llm mu).1
        = RouterResult.badGateway ∨
      (get_mindmap paper chunks v dttl ttl σ now pid llm mu).1
        = RouterResult.unhandledError) ∧
    ((get_mindmap paper chunks v dttl ttl σ now pid llm mu).1
        = RouterResult.unhandledError →
      paper.isSome ∧ chunks ≠ [] ∧ (cacheGet v dttl σ now pid).1 = none ∧
      ∃ raw o rv root, llm = .ok raw ∧
        jsonLoads (stripFence raw) = some (.obj o) ∧
        objGet o "root" = some rv ∧ validateNode rv = some root ∧
        ((∃ jv, objGet o "paper_title" = some jv ∧ ∀ s, jv ≠ .str s) ∨
         (∃ jv, objGet o "sections_covered" = some jv ∧ strListOfJ jv = none))) := by
  cases paper with
  | none =>
    refine ⟨by simp [get_mindmap], by simp [get_mindmap], ?_, by simp [get_mindmap]⟩
    right
    left
    simp [get_mindmap]
  | some p =>
    cases chunks with
    | nil =>
      refine ⟨by simp [get_mindmap], by simp [get_mindmap], ?_, by simp [get_mindmap]⟩
      right
      right
      left
      simp [get_mindmap, List.isEmpty]
    | cons c cs =>
      have hne : ((c :: cs : List Chunk)).isEmpty = false := rfl
      have hroute : get_mindmap (some p) (c :: cs) v dttl ttl σ now pid llm mu
          = (match (get_or_generate v dttl ttl σ now pid p.arxiv_id p.title
                (c :: cs) llm mu).1 with
             | .ok m => RouterResult.ok m
             | .error (.genFailure _) => RouterResult.badGateway
             | .error .unhandledExc => RouterResult.unhandledError,
             (get_or_generate v dttl ttl σ now pid p.arxiv_id p.title
                (c :: cs) llm mu).2) := by
        unfold get_mindmap
        rw [hne]
        simp only [Bool.false_eq_true, if_false]
        rcases get_or_generate v dttl ttl σ now pid p.arxiv_id p.title
            (c :: cs) llm mu with ⟨res, σ'⟩
        rcases res with e | m
        · cases e <;> rfl
        · rfl
      rw [hroute]
      cases hres : (get_or_generate v dttl ttl σ now pid p.arxiv_id p.title
          (c :: cs) llm mu).1 with
      | ok m =>
        refine ⟨by simp, by simp [List.isEmpty], Or.inl ⟨m, rfl⟩, by simp⟩
      | error e =>
        cases e with
        | genFailure reason =>
          refine ⟨by simp, by simp [List.isEmpty], ?_, by simp⟩
          right; right; right; left
          rfl
        | unhandledExc =>
          refine ⟨by simp, by simp [List.isEmpty], ?_, ?_⟩
          · right; right; right; right
            rfl
          · intro _
            have hpair : get_or_generate v dttl ttl σ now pid p.arxiv_id p.title
                (c :: cs) llm mu
                = (.error .unhandledExc,
                   (get_or_generate v dttl ttl σ now pid p.arxiv_id p.title
                     (c :: cs) llm mu).2) := by
              rw [← hres]
            obtain ⟨hmiss, hg⟩ := get_or_generate_error v dttl ttl now pid
              p.arxiv_id p.title (c :: cs) llm mu σ _ _ hpair
            obtain ⟨hchunks, raw, hraw, hparse⟩ :=
              mmGenerate_unhandled pid p.arxiv_id p.title (c :: cs) llm now mu hg
            obtain ⟨o, rv, root, hjson, hroot', hval, hshape⟩ :=
              mmParse_unhandled_shape raw pid p.arxiv_id p.title now mu hparse
            exact ⟨rfl, hchunks, hmiss, raw, o, rv, root, hraw, hjson,
              hroot', hval, hshape⟩

/-- C9 counterexample: a payload whose root validates but whose
`paper_title` is a number makes the route fail with an error none of the
404/422/502 branches classifies. -/
theorem c9_counterexample_unclassified_route_error :
    (get_mindmap (some ⟨"2401.00001", "T"⟩) [⟨"text", "intro"⟩] 1 60 300
        (fun _ => none) 0 "p"
        (.ok "\x7b\"root\": \x7b\"id\": \"a\", \"label\": \"A\", \"node_type\": \"root\", \"importance\": \"primary\"\x7d, \"paper_title\": 5\x7d")
        "m").1 = RouterResult.unhandledError ∧
    RouterResult.unhandledError ≠ RouterResult.notFound ∧
    RouterResult.unhandledError ≠ RouterResult.unprocessable ∧
    RouterResult.unhandledError ≠ RouterResult.badGateway := by
  refine ⟨?_, fun h => RouterResult.noConfusion h, fun h => RouterResult.noConfusion h,
    fun h => RouterResult.noConfusion h⟩
  have hjson : jsonLoads (stripFence "\x7b\"root\": \x7b\"id\": \"a\", \"label\": \"A\", \"node_type\": \"root\", \"importance\": \"primary\"\x7d, \"paper_title\": 5\x7d")
      = some (.obj [("root", .obj [("id", .str "a"), ("label", .str "A"),
          ("node_type", .str "root"), ("importance", .str "primary")]),
          ("paper_title", .num 5 0)]) := by rfl
  have hnode : validateNode (.obj [("id", .str "a"), ("label", .str "A"),
        ("node_type", .str "root"), ("importance", .str "primary")])
      = some (.mk "a" "A" none "root" "primary" none []) := by
    simp [validateNode, objGet, optStrOfJ, allowedNodeTypes, allowedImportance]
  have hparse : mmParse "\x7b\"root\": \x7b\"id\": \"a\", \"label\": \"A\", \"node_type\": \"root\", \"importance\": \"primary\"\x7d, \"paper_title\": 5\x7d"
      "p" "2401.00001" "T" 0 "m" = .error .unhandledExc := by
    simp [mmParse, hjson, hnode, objGet]
    rfl
  have hgen : mmGenerate "p" "2401.00001" "T" [⟨"text", "intro"⟩]
      (.ok "\x7b\"root\": \x7b\"id\": \"a\", \"label\": \"A\", \"node_type\": \"root\", \"importance\": \"primary\"\x7d, \"paper_title\": 5\x7d")
      0 "m" = .error .unhandledExc := by
    simp [mmGenerate, hparse]
  have hcg : cacheGet 1 60 (fun _ => none) 0 "p"
      = (none, fun _ => none) := rfl
  have hgg : get_or_generate 1 60 300 (fun _ => none) 0 "p" "2401.00001" "T"
      [⟨"text", "intro"⟩]
      (.ok "\x7b\"root\": \x7b\"id\": \"a\", \"label\": \"A\", \"node_type\": \"root\", \"importance\": \"primary\"\x7d, \"paper_title\": 5\x7d")
      "m" = (.error .unhandledExc, fun _ => none) := by
    rw [get_or_generate, hcg, hgen]
  rw [get_mindmap, hgg]
  rfl

/-- Witness for the C9 amended theorem at a concrete input: a missing paper
yields exactly the 404 outcome. -/
theorem c9_amended_witness :
    (get_mindmap none [] 1 60 300 (fun _ => none) 0 "p"
        (Except.error OllamaError.connectionFailure) "m").1
      = RouterResult.notFound :=
  (c9_amended_route_outcome_classification none [] 1 60 300 (fun _ => none) 0
    "p" (Except.error OllamaError.connectionFailure) "m").1.mpr rfl
